import Mathlib

/-!
Shallow embedding of `src/app.py` (Stone Pattern Generator): the image
loader `load_large_image` and the redistribution stage
`detect_and_move_flakes`, together with theorems checking the
specification's claims about them.

Modelling conventions: Python nonnegative ints are `ℕ`, Python floats are
`ℚ` (the algorithm only ever divides by positive quantities), `int(...)`
on a nonnegative value is the floor, and `np.random.randint` is driven by
an explicit stream `rng : ℕ → ℕ` of draws so that every run is a total
function of the image, the parameters and the stream.  A run that would
raise an exception in Python (caught there by the surrounding
`try/except`, which returns `None`) is modelled as `none`.
-/

namespace StoneGen

/-- Python `int(q)` for a nonnegative value `q`: truncation toward zero,
which equals the floor for the nonnegative quantities used here. -/
def pyInt (q : ℚ) : ℕ := ⌊q⌋.toNat

/-- A decoded interleaved 3-channel 8-bit image, `np.array` of shape
`(height, width, 3)` as produced by `np.array(image)` in
`detect_and_move_flakes`. -/
structure Img where
  height : ℕ
  width : ℕ
  pix : ℕ → ℕ → Fin 3 → ℕ

/-- A raw array as returned by `tifffile.asarray()` in `load_large_image`:
`ndim` models `len(img_array.shape)` and `channels` models
`img_array.shape[2]` (meaningful when `ndim = 3`).  Only 8-bit arrays are
modelled, so the `img_array.dtype != np.uint8` normalization branch of the
source is never taken. -/
structure RawArr where
  ndim : ℕ
  height : ℕ
  width : ℕ
  channels : ℕ
  pix : ℕ → ℕ → ℕ → ℕ

/-- One output byte of the CMYK conversion in `load_large_image`:
`r = (1.0 - c) * (1.0 - k)` on channels scaled into `[0, 1]` by `/ 255.0`,
then `(rgb * 255).astype(np.uint8)`, which truncates toward zero. -/
def cmykByte (a k : ℕ) : ℕ :=
  (⌊(255 : ℚ) * (1 - (a : ℚ) / 255) * (1 - (k : ℚ) / 255)⌋).toNat

/-- The `img_array.shape[2] == 4` branch of `load_large_image`: per-pixel
CMYK-to-RGB conversion; output channel `ch` is computed from input channel
`ch` (C, M or Y) and input channel `3` (K). -/
def cmykToRgb (a : RawArr) : Img :=
  ⟨a.height, a.width, fun y x ch => cmykByte (a.pix y x ch.val) (a.pix y x 3)⟩

/-- Modelled from PIL: `Image.fromarray` on an 8-bit array of shape
`(h, w, c)` succeeds for `c = 3` (mode RGB) and raises `TypeError` for the
other channel counts that can reach this branch of `load_large_image`
(`c = 4` is already consumed by the CMYK branch). -/
def pilFromArray (a : RawArr) : Option Img :=
  if a.channels = 3 then some ⟨a.height, a.width, fun y x ch => a.pix y x ch.val⟩
  else none

/-- `load_large_image`.  `primary` is the outcome of the `tifffile` read
(`none` when `TiffFile`/`asarray` raises), `fallback` is the outcome of
the `except` branch (`Image.open` on the raw bytes plus CMYK-mode
conversion; `none` when that also raises).  An exception anywhere inside
the `try` block lands in the `except` branch, which attempts the fallback;
the `len(img_array.shape) != 3` case instead executes `return None`
directly, without reaching the fallback. -/
def load_large_image (primary : Option RawArr) (fallback : Option Img) : Option Img :=
  match primary with
  | none => fallback
  | some a =>
    if a.ndim = 3 then
      if a.channels = 4 then some (cmykToRgb a)
      else
        match pilFromArray a with
        | some img => some img
        | none => fallback
    else none

/-- Modelled from the spec: restricting a raw buffer to its first four
channels ("ignoring any channels beyond the fourth").  Used only to state
what the claimed spot-channel-dropping behaviour would produce. -/
def takeFourChannels (a : RawArr) : RawArr := { a with channels := 4 }

/-- `max_flake_size = int(200 * flake_size_range)`. -/
def max_flake_size (fsr : ℚ) : ℕ := pyInt (200 * fsr)

/-- `step_size = int(max_flake_size // (redistribution_intensity + 1))`:
integer result of a float floor-division. -/
def step_size (ri fsr : ℚ) : ℕ := pyInt ((max_flake_size fsr : ℚ) / (ri + 1))

/-- Python `range(0, stop, step)` for `step > 0`, with a `stop` that has
already been truncated at zero (a negative Python `stop` gives the empty
range, exactly as `ℕ` subtraction does at the call sites). -/
def py_range (stop step : ℕ) : List ℕ :=
  (List.range ((stop + step - 1) / step)).map (fun k => k * step)

/-- The nested `for y ... for x ...` iteration order: `y` outer, `x` inner. -/
def tile_list : List ℕ → List ℕ → List (ℕ × ℕ)
  | [], _ => []
  | y :: ys, xs => xs.map (fun x => (y, x)) ++ tile_list ys xs

/-- All grid-tile origins visited by `detect_and_move_flakes`:
`range(0, height - max_flake_size, step_size)` crossed with
`range(0, width - max_flake_size, step_size)`. -/
def scan_tiles (img : Img) (size step : ℕ) : List (ℕ × ℕ) :=
  tile_list (py_range (img.height - size) step) (py_range (img.width - size) step)

/-- Sum of `f` over one channel of the tile
`img_array[y:y+size, x:x+size]`. -/
def tile_sum (img : Img) (y x size : ℕ) (ch : Fin 3) (f : ℕ → ℚ) : ℚ :=
  ∑ i ∈ Finset.range size, ∑ j ∈ Finset.range size, f (img.pix (y + i) (x + j) ch)

/-- One component of `np.var(roi, axis=(0,1))`: the population variance of
channel `ch` of the tile, `E[v²] - (E[v])²` with `N = size²`. -/
def chan_var (img : Img) (y x size : ℕ) (ch : Fin 3) : ℚ :=
  tile_sum img y x size ch (fun v => (v : ℚ) ^ 2) / (size : ℚ) ^ 2 -
    (tile_sum img y x size ch (fun v => (v : ℚ)) / (size : ℚ) ^ 2) ^ 2

/-- `np.sum(variance)`: per-channel variances of the tile, summed. -/
def sum_var (img : Img) (y x size : ℕ) : ℚ := ∑ ch : Fin 3, chan_var img y x size ch

/-- `threshold = 500 * (1 - color_sensitivity)`. -/
def threshold (cs : ℚ) : ℚ := 500 * (1 - cs)

/-- `move_range = int(min(height, width) * redistribution_intensity)`. -/
def move_range (h w : ℕ) (ri : ℚ) : ℕ := pyInt (((min h w : ℕ) : ℚ) * ri)

/-- `np.random.randint(lo, hi)` driven by one draw `s` from the stream:
a value in `[lo, hi)` whenever `lo < hi` (numpy's upper bound is
exclusive).  The caller checks `lo < hi`; numpy raises otherwise. -/
def randint (lo hi s : ℕ) : ℕ := lo + s % (hi - lo)

/-- The candidate coordinate for one axis:
`np.random.randint(max(0, origin - move_range),
min(dimension - max_flake_size, origin + move_range))`.
`ℕ` subtraction implements the `max(0, ·)` clamp. -/
def new_coord (dim size origin mr s : ℕ) : ℕ :=
  randint (origin - mr) (min (dim - size) (origin + mr)) s

/-- Membership of pixel `(r, c)` in the bounding-box footprint of a region
of edge `size` placed with top-left corner `t`. -/
def inFootprint (t : ℕ × ℕ) (size : ℕ) (r c : ℕ) : Prop :=
  t.1 ≤ r ∧ r < t.1 + size ∧ t.2 ≤ c ∧ c < t.2 + size

instance (t : ℕ × ℕ) (size r c : ℕ) : Decidable (inFootprint t size r c) := by
  unfold inFootprint
  infer_instance

/-- Two placed footprints share at least one pixel. -/
def footprintsOverlap (t1 t2 : ℕ × ℕ) (size : ℕ) : Prop :=
  ∃ r c, inFootprint t1 size r c ∧ inFootprint t2 size r c

/-- `new_image[new_y:new_y+size, new_x:new_x+size] = flake` where
`flake = img_array[y:y+size, x:x+size].copy()` was snapshotted from the
original image (`src`), not from the partially modified output. -/
def write_flake (src cur : ℕ → ℕ → Fin 3 → ℕ) (sy sx ty tx size : ℕ) :
    ℕ → ℕ → Fin 3 → ℕ :=
  fun r c ch =>
    if inFootprint (ty, tx) size r c then src (sy + (r - ty)) (sx + (c - tx)) ch
    else cur r c ch

/-- Loop state of `detect_and_move_flakes`: the output buffer `new_image`,
the trace of accepted placement origins `(new_y, new_x)` in order, and the
position in the random stream. -/
structure RunState where
  out : ℕ → ℕ → Fin 3 → ℕ
  placed : List (ℕ × ℕ)
  idx : ℕ

/-- The body of the nested scan loop for one tile origin `t = (y, x)`:
variance test against the threshold, then `np.random.randint` for each
axis (raising, i.e. `none`, when its interval is empty), then the
unconditional write of the flake into `new_image`. -/
def process_tile (img : Img) (ri cs : ℚ) (size : ℕ) (rng : ℕ → ℕ)
    (st : RunState) (t : ℕ × ℕ) : Option RunState :=
  if sum_var img t.1 t.2 size > threshold cs then
    if t.1 - move_range img.height img.width ri <
        min (img.height - size) (t.1 + move_range img.height img.width ri) then
      if t.2 - move_range img.height img.width ri <
          min (img.width - size) (t.2 + move_range img.height img.width ri) then
        some ⟨write_flake img.pix st.out t.1 t.2
                (new_coord img.height size t.1 (move_range img.height img.width ri) (rng st.idx))
                (new_coord img.width size t.2 (move_range img.height img.width ri) (rng (st.idx + 1)))
                size,
              st.placed ++
                [(new_coord img.height size t.1 (move_range img.height img.width ri) (rng st.idx),
                  new_coord img.width size t.2 (move_range img.height img.width ri) (rng (st.idx + 1)))],
              st.idx + 2⟩
      else none
    else none
  else some st

/-- The nested scan loop over the list of tile origins. -/
def run_tiles (img : Img) (ri cs : ℚ) (size : ℕ) (rng : ℕ → ℕ) :
    List (ℕ × ℕ) → RunState → Option RunState
  | [], st => some st
  | t :: ts, st =>
    match process_tile img ri cs size rng st t with
    | some st2 => run_tiles img ri cs size rng ts st2
    | none => none

/-- The whole redistribution loop: `new_image = img_array.copy()`, then the
grid scan.  `step_size = 0` would make Python's `range` (and the
`total_steps` division) raise, hence `none`. -/
def run_fold (img : Img) (ri fsr cs : ℚ) (rng : ℕ → ℕ) : Option RunState :=
  if step_size ri fsr = 0 then none
  else
    run_tiles img ri cs (max_flake_size fsr) rng
      (scan_tiles img (max_flake_size fsr) (step_size ri fsr)) ⟨img.pix, [], 0⟩

/-- `detect_and_move_flakes`: the returned image
`Image.fromarray(new_image)`, of the input's dimensions, or `none` when
the `try` block raised. -/
def detect_and_move_flakes (img : Img) (ri fsr cs : ℚ) (rng : ℕ → ℕ) : Option Img :=
  (run_fold img ri fsr cs rng).map fun st => ⟨img.height, img.width, st.out⟩

/-- The invariant carried through the scan loop: pixels outside every
placed footprint still hold the original image, and every placed footprint
lies strictly inside the image (its last row and column are at most
`height - 2` resp. `width - 2`). -/
def PlacedOK (img : Img) (size : ℕ) (st : RunState) : Prop :=
  (∀ r c ch, (∀ t ∈ st.placed, ¬ inFootprint t size r c) → st.out r c ch = img.pix r c ch) ∧
    ∀ t ∈ st.placed, t.1 + size < img.height ∧ t.2 + size < img.width

/-! Concrete instances used by counterexamples and witnesses. -/

/-- A 1×1 all-black canonical image. -/
def img0 : Img := ⟨1, 1, fun _ _ _ => 0⟩

/-- A 101×151 image whose every channel alternates 0/1 along each row:
every 100×100 tile has summed per-channel variance 3/4 > 0. -/
def img1 : Img := ⟨101, 151, fun _ x _ => x % 2⟩

/-- Output buffer of the run on `img1` after the first placement. -/
def out1 : ℕ → ℕ → Fin 3 → ℕ := write_flake img1.pix img1.pix 0 0 0 0 100

/-- Output buffer of the run on `img1` after the second placement. -/
def out2 : ℕ → ℕ → Fin 3 → ℕ := write_flake img1.pix out1 0 50 0 0 100

/-- Loop state of the run on `img1` after the first tile is placed. -/
def stA : RunState := ⟨out1, [(0, 0)], 2⟩

/-- Final loop state of the run on `img1` with the all-zero random stream:
both detected tiles are placed at `(0, 0)`. -/
def st1 : RunState := ⟨out2, [(0, 0), (0, 0)], 4⟩

/-- The unchanged output image of a run on `img0`. -/
def out0 : Img := ⟨1, 1, img0.pix⟩

/-- A 1×1 all-white 4-channel CMYK array (C = M = Y = K = 0). -/
def whiteArr : RawArr := ⟨3, 1, 1, 4, fun _ _ _ => 0⟩

/-- A 1×1 all-black 4-channel CMYK array (K = 255). -/
def blackArr : RawArr := ⟨3, 1, 1, 4, fun _ _ c => if c = 3 then 255 else 0⟩

/-- A 1×1 five-channel array: four CMYK planes plus one spot plane. -/
def fiveArr : RawArr := ⟨3, 1, 1, 5, fun _ _ _ => 0⟩

/-- A 4×4 single-plane (2-dimensional) grayscale array. -/
def grayArr : RawArr := ⟨2, 4, 4, 1, fun _ _ _ => 7⟩

/-- A 1×1 all-white decoded image, standing for a successful fallback. -/
def imgW : Img := ⟨1, 1, fun _ _ _ => 255⟩

/-! Arithmetic helper lemmas. -/

lemma le_pyInt (n : ℕ) (q : ℚ) (h : (n : ℚ) ≤ q) : n ≤ pyInt q := by
  unfold pyInt
  have h2 : (n : ℤ) ≤ ⌊q⌋ := Int.le_floor.mpr (by exact_mod_cast h)
  omega

lemma one_le_pyInt (q : ℚ) (h : 1 ≤ q) : 1 ≤ pyInt q :=
  le_pyInt 1 q (by exact_mod_cast h)

lemma max_flake_size_ge (fsr : ℚ) (h : 1/2 ≤ fsr) : 100 ≤ max_flake_size fsr := by
  unfold max_flake_size
  exact le_pyInt 100 _ (by push_cast; linarith)

lemma step_size_pos (ri fsr : ℚ) (h1 : 1/10 ≤ ri) (h2 : ri ≤ 1) (h3 : 1/2 ≤ fsr) :
    1 ≤ step_size ri fsr := by
  unfold step_size
  have hs : (100 : ℚ) ≤ (max_flake_size fsr : ℚ) := by
    exact_mod_cast max_flake_size_ge fsr h3
  apply one_le_pyInt
  rw [one_le_div (by linarith)]
  linarith

lemma pyRange_lt (stop step y : ℕ) (hstep : 1 ≤ step) (hy : y ∈ py_range stop step) :
    y < stop := by
  obtain ⟨k, hk, rfl⟩ := List.mem_map.mp hy
  rw [List.mem_range] at hk
  have h1 : k + 1 ≤ (stop + step - 1) / step := hk
  have h2 : (k + 1) * step ≤ stop + step - 1 :=
    (Nat.le_div_iff_mul_le (by omega)).mp h1
  have h3 : k * step + step ≤ stop + step - 1 := by
    rw [add_mul, one_mul] at h2
    exact h2
  omega

lemma mem_tile_list (ys xs : List ℕ) (t : ℕ × ℕ) (h : t ∈ tile_list ys xs) :
    t.1 ∈ ys ∧ t.2 ∈ xs := by
  induction ys with
  | nil => cases h
  | cons y ys ih =>
    rw [tile_list, List.mem_append] at h
    rcases h with h | h
    · obtain ⟨x, hx, rfl⟩ := List.mem_map.mp h
      exact ⟨List.mem_cons_self y ys, hx⟩
    · obtain ⟨h1, h2⟩ := ih h
      exact ⟨List.mem_cons_of_mem y h1, h2⟩

lemma mem_scan_tiles (img : Img) (size step : ℕ) (t : ℕ × ℕ) (hstep : 1 ≤ step)
    (h : t ∈ scan_tiles img size step) :
    t.1 < img.height - size ∧ t.2 < img.width - size := by
  obtain ⟨h1, h2⟩ := mem_tile_list _ _ t h
  exact ⟨pyRange_lt _ step _ hstep h1, pyRange_lt _ step _ hstep h2⟩

/-! Unfolding lemmas for the scan loop. -/

lemma process_tile_pos (img : Img) (ri cs : ℚ) (size : ℕ) (rng : ℕ → ℕ)
    (st : RunState) (t : ℕ × ℕ) (ny nx : ℕ)
    (hv : sum_var img t.1 t.2 size > threshold cs)
    (hy : t.1 - move_range img.height img.width ri <
      min (img.height - size) (t.1 + move_range img.height img.width ri))
    (hx : t.2 - move_range img.height img.width ri <
      min (img.width - size) (t.2 + move_range img.height img.width ri))
    (hny : new_coord img.height size t.1 (move_range img.height img.width ri) (rng st.idx) = ny)
    (hnx : new_coord img.width size t.2 (move_range img.height img.width ri) (rng (st.idx + 1)) = nx) :
    process_tile img ri cs size rng st t =
      some ⟨write_flake img.pix st.out t.1 t.2 ny nx size,
            st.placed ++ [(ny, nx)], st.idx + 2⟩ := by
  unfold process_tile
  rw [if_pos hv, if_pos hy, if_pos hx, hny, hnx]

lemma process_tile_neg (img : Img) (ri cs : ℚ) (size : ℕ) (rng : ℕ → ℕ)
    (st : RunState) (t : ℕ × ℕ)
    (hv : ¬ sum_var img t.1 t.2 size > threshold cs) :
    process_tile img ri cs size rng st t = some st := by
  unfold process_tile
  rw [if_neg hv]

lemma run_tiles_nil (img : Img) (ri cs : ℚ) (size : ℕ) (rng : ℕ → ℕ) (st : RunState) :
    run_tiles img ri cs size rng [] st = some st := rfl

lemma run_tiles_cons (img : Img) (ri cs : ℚ) (size : ℕ) (rng : ℕ → ℕ)
    (t : ℕ × ℕ) (ts : List (ℕ × ℕ)) (st : RunState) :
    run_tiles img ri cs size rng (t :: ts) st =
      match process_tile img ri cs size rng st t with
      | some st2 => run_tiles img ri cs size rng ts st2
      | none => none := rfl

lemma run_tiles_cons_some (img : Img) (ri cs : ℚ) (size : ℕ) (rng : ℕ → ℕ)
    (t : ℕ × ℕ) (ts : List (ℕ × ℕ)) (st st2 : RunState)
    (h : process_tile img ri cs size rng st t = some st2) :
    run_tiles img ri cs size rng (t :: ts) st = run_tiles img ri cs size rng ts st2 := by
  rw [run_tiles_cons, h]

/-! The scan loop never fails on tiles that the scan itself produced,
provided the flake size is at least 100 (any `flake_size_range ≥ 0.5`)
and the intensity is at least 0.1: under those bounds the randint
intervals are nonempty. -/

lemma move_range_pos (img : Img) (ri : ℚ) (size : ℕ)
    (hsize : 100 ≤ size) (hri : 1/10 ≤ ri)
    (hH : 0 < img.height - size) (hW : 0 < img.width - size) :
    1 ≤ move_range img.height img.width ri := by
  unfold move_range
  apply one_le_pyInt
  have hmin : 101 ≤ min img.height img.width := by omega
  have hminq : (101 : ℚ) ≤ ((min img.height img.width : ℕ) : ℚ) := by exact_mod_cast hmin
  nlinarith

lemma run_tiles_total (img : Img) (ri cs : ℚ) (size : ℕ) (rng : ℕ → ℕ)
    (hsize : 100 ≤ size) (hri : 1/10 ≤ ri) :
    ∀ L : List (ℕ × ℕ),
      (∀ t ∈ L, t.1 < img.height - size ∧ t.2 < img.width - size) →
      ∀ st : RunState, ∃ st2, run_tiles img ri cs size rng L st = some st2 := by
  intro L
  induction L with
  | nil => exact fun _ st => ⟨st, rfl⟩
  | cons t ts ih =>
    intro hT st
    have hy := (hT t (List.mem_cons_self t ts)).1
    have hx := (hT t (List.mem_cons_self t ts)).2
    have hrest : ∀ u ∈ ts, u.1 < img.height - size ∧ u.2 < img.width - size :=
      fun u hu => hT u (List.mem_cons_of_mem t hu)
    by_cases hv : sum_var img t.1 t.2 size > threshold cs
    · have hmr : 1 ≤ move_range img.height img.width ri :=
        move_range_pos img ri size hsize hri (by omega) (by omega)
      obtain ⟨st2, h2⟩ := ih hrest
        ⟨write_flake img.pix st.out t.1 t.2
            (new_coord img.height size t.1 (move_range img.height img.width ri) (rng st.idx))
            (new_coord img.width size t.2 (move_range img.height img.width ri) (rng (st.idx + 1)))
            size,
          st.placed ++
            [(new_coord img.height size t.1 (move_range img.height img.width ri) (rng st.idx),
              new_coord img.width size t.2 (move_range img.height img.width ri) (rng (st.idx + 1)))],
          st.idx + 2⟩
      refine ⟨st2, ?_⟩
      rw [run_tiles_cons_some img ri cs size rng t ts st _
        (process_tile_pos img ri cs size rng st t _ _ hv (by omega) (by omega) rfl rfl)]
      exact h2
    · obtain ⟨st2, h2⟩ := ih hrest st
      refine ⟨st2, ?_⟩
      rw [run_tiles_cons_some img ri cs size rng t ts st st
        (process_tile_neg img ri cs size rng st t hv)]
      exact h2

/-- When no scanned tile passes the variance test, the loop leaves the
state untouched. -/
lemma run_tiles_id (img : Img) (ri cs : ℚ) (size : ℕ) (rng : ℕ → ℕ) :
    ∀ L : List (ℕ × ℕ),
      (∀ t ∈ L, ¬ sum_var img t.1 t.2 size > threshold cs) →
      ∀ st : RunState, run_tiles img ri cs size rng L st = some st := by
  intro L
  induction L with
  | nil => exact fun _ st => rfl
  | cons t ts ih =>
    intro hT st
    rw [run_tiles_cons_some img ri cs size rng t ts st st
      (process_tile_neg img ri cs size rng st t (hT t (List.mem_cons_self t ts)))]
    exact ih (fun u hu => hT u (List.mem_cons_of_mem t hu)) st

/-! The placement invariant. -/

lemma new_coord_lt (dim size origin mr s : ℕ)
    (h : origin - mr < min (dim - size) (origin + mr)) :
    new_coord dim size origin mr s < min (dim - size) (origin + mr) := by
  unfold new_coord randint
  have hmod : s % (min (dim - size) (origin + mr) - (origin - mr)) <
      min (dim - size) (origin + mr) - (origin - mr) := Nat.mod_lt _ (by omega)
  omega

lemma placedOK_init (img : Img) (size : ℕ) : PlacedOK img size ⟨img.pix, [], 0⟩ := by
  constructor
  · exact fun _ _ _ _ => rfl
  · intro t ht
    cases ht

lemma placedOK_place (img : Img) (size : ℕ) (st : RunState) (sy sx ny nx idx2 : ℕ)
    (h : PlacedOK img size st)
    (hny : ny + size < img.height) (hnx : nx + size < img.width) :
    PlacedOK img size
      ⟨write_flake img.pix st.out sy sx ny nx size, st.placed ++ [(ny, nx)], idx2⟩ := by
  constructor
  · intro r c ch hout
    have hnew : ¬ inFootprint (ny, nx) size r c :=
      hout (ny, nx) (List.mem_append.mpr (Or.inr (List.mem_singleton.mpr rfl)))
    have hold : ∀ t ∈ st.placed, ¬ inFootprint t size r c :=
      fun t ht => hout t (List.mem_append.mpr (Or.inl ht))
    show write_flake img.pix st.out sy sx ny nx size r c ch = img.pix r c ch
    unfold write_flake
    rw [if_neg hnew]
    exact h.1 r c ch hold
  · intro t ht
    rcases List.mem_append.mp ht with ht | ht
    · exact h.2 t ht
    · rw [List.mem_singleton] at ht
      subst ht
      exact ⟨hny, hnx⟩

lemma run_tiles_inv (img : Img) (ri cs : ℚ) (size : ℕ) (rng : ℕ → ℕ) :
    ∀ (L : List (ℕ × ℕ)) (st st2 : RunState),
      PlacedOK img size st → run_tiles img ri cs size rng L st = some st2 →
      PlacedOK img size st2 := by
  intro L
  induction L with
  | nil =>
    intro st st2 h hrun
    rw [run_tiles_nil] at hrun
    cases hrun
    exact h
  | cons t ts ih =>
    intro st st2 h hrun
    by_cases hv : sum_var img t.1 t.2 size > threshold cs
    · by_cases hy : t.1 - move_range img.height img.width ri <
          min (img.height - size) (t.1 + move_range img.height img.width ri)
      · by_cases hx : t.2 - move_range img.height img.width ri <
            min (img.width - size) (t.2 + move_range img.height img.width ri)
        · rw [run_tiles_cons_some img ri cs size rng t ts st _
            (process_tile_pos img ri cs size rng st t _ _ hv hy hx rfl rfl)] at hrun
          refine ih _ _ ?_ hrun
          have hltY := new_coord_lt img.height size t.1
            (move_range img.height img.width ri) (rng st.idx) hy
          have hltX := new_coord_lt img.width size t.2
            (move_range img.height img.width ri) (rng (st.idx + 1)) hx
          exact placedOK_place img size st t.1 t.2 _ _ _ h (by omega) (by omega)
        · rw [run_tiles_cons] at hrun
          unfold process_tile at hrun
          rw [if_pos hv, if_pos hy, if_neg hx] at hrun
          cases hrun
      · rw [run_tiles_cons] at hrun
        unfold process_tile at hrun
        rw [if_pos hv, if_neg hy] at hrun
        cases hrun
    · rw [run_tiles_cons_some img ri cs size rng t ts st st
        (process_tile_neg img ri cs size rng st t hv)] at hrun
      exact ih _ _ h hrun

/-! Variance of the alternating image `img1`: every 100×100 tile has
channel variance 1/4, hence summed variance 3/4. -/

lemma parity_sum (x : ℕ) : ∀ n : ℕ, ∑ j ∈ Finset.range (2 * n), (x + j) % 2 = n := by
  intro n
  induction n with
  | zero => simp
  | succ n ih =>
    have h2 : 2 * (n + 1) = 2 * n + 1 + 1 := by ring
    rw [h2, Finset.sum_range_succ, Finset.sum_range_succ, ih]
    omega

lemma tile_sum_img1_id (y x : ℕ) (ch : Fin 3) :
    tile_sum img1 y x 100 ch (fun v => (v : ℚ)) = 5000 := by
  unfold tile_sum
  have hpix : ∀ a j : ℕ, img1.pix (y + a) (x + j) ch = (x + j) % 2 := fun a j => rfl
  have inner : ∀ a : ℕ,
      (∑ j ∈ Finset.range 100, ((img1.pix (y + a) (x + j) ch : ℕ) : ℚ)) = 50 := by
    intro a
    simp only [hpix]
    rw [show (100 : ℕ) = 2 * 50 by norm_num, ← Nat.cast_sum, parity_sum x 50]
    norm_num
  rw [Finset.sum_congr rfl fun a _ => inner a, Finset.sum_const, Finset.card_range]
  norm_num

lemma tile_sum_img1_sq (y x : ℕ) (ch : Fin 3) :
    tile_sum img1 y x 100 ch (fun v => (v : ℚ) ^ 2) = 5000 := by
  unfold tile_sum
  have hpix : ∀ a j : ℕ, img1.pix (y + a) (x + j) ch = (x + j) % 2 := fun a j => rfl
  have hsq : ∀ m : ℕ, (((m % 2 : ℕ) : ℚ)) ^ 2 = ((m % 2 : ℕ) : ℚ) := by
    intro m
    rcases Nat.mod_two_eq_zero_or_one m with h | h <;> rw [h] <;> norm_num
  have inner : ∀ a : ℕ,
      (∑ j ∈ Finset.range 100, ((img1.pix (y + a) (x + j) ch : ℕ) : ℚ) ^ 2) = 50 := by
    intro a
    simp only [hpix, hsq]
    rw [show (100 : ℕ) = 2 * 50 by norm_num, ← Nat.cast_sum, parity_sum x 50]
    norm_num
  rw [Finset.sum_congr rfl fun a _ => inner a, Finset.sum_const, Finset.card_range]
  norm_num

lemma chan_var_img1 (y x : ℕ) (ch : Fin 3) : chan_var img1 y x 100 ch = 1/4 := by
  unfold chan_var
  rw [tile_sum_img1_id, tile_sum_img1_sq]
  norm_num

lemma sum_var_img1 (y x : ℕ) : sum_var img1 y x 100 = 3/4 := by
  unfold sum_var
  rw [Finset.sum_congr rfl fun ch _ => chan_var_img1 y x ch, Finset.sum_const,
    Finset.card_univ]
  norm_num

/-! Concrete evaluations of the scenario parameters. -/

lemma max_flake_size_half : max_flake_size (1/2) = 100 := by
  norm_num [max_flake_size, pyInt]
  rfl

lemma max_flake_size_one : max_flake_size 1 = 200 := by
  norm_num [max_flake_size, pyInt]
  rfl

lemma step_size_one_half : step_size 1 (1/2) = 50 := by
  rw [step_size, max_flake_size_half]
  norm_num [pyInt]
  rfl

lemma step_size_half_one : step_size (1/2) 1 = 133 := by
  rw [step_size, max_flake_size_one]
  norm_num [pyInt]
  rfl

lemma step_size_one_one : step_size 1 1 = 100 := by
  rw [step_size, max_flake_size_one]
  norm_num [pyInt]
  rfl

lemma move_range_img1 : move_range 101 151 1 = 101 := by
  norm_num [move_range, pyInt]
  rfl

/-! Evaluation of the run on `img1` with the all-zero random stream. -/

lemma process_img1_first :
    process_tile img1 1 1 100 (fun _ => 0) ⟨img1.pix, [], 0⟩ (0, 0) = some stA :=
  process_tile_pos img1 1 1 100 (fun _ => 0) ⟨img1.pix, [], 0⟩ (0, 0) 0 0
    (by rw [sum_var_img1, threshold]; norm_num)
    (by rw [show move_range img1.height img1.width 1 = 101 from move_range_img1]; decide)
    (by rw [show move_range img1.height img1.width 1 = 101 from move_range_img1]; decide)
    (by rw [show move_range img1.height img1.width 1 = 101 from move_range_img1]; decide)
    (by rw [show move_range img1.height img1.width 1 = 101 from move_range_img1]; decide)

lemma process_img1_second :
    process_tile img1 1 1 100 (fun _ => 0) stA (0, 50) = some st1 :=
  process_tile_pos img1 1 1 100 (fun _ => 0) stA (0, 50) 0 0
    (by rw [sum_var_img1, threshold]; norm_num)
    (by rw [show move_range img1.height img1.width 1 = 101 from move_range_img1]; decide)
    (by rw [show move_range img1.height img1.width 1 = 101 from move_range_img1]; decide)
    (by rw [show move_range img1.height img1.width 1 = 101 from move_range_img1]; decide)
    (by rw [show move_range img1.height img1.width 1 = 101 from move_range_img1]; decide)

lemma run_fold_img1 : run_fold img1 1 (1/2) 1 (fun _ => 0) = some st1 := by
  unfold run_fold
  rw [step_size_one_half, max_flake_size_half, if_neg (by norm_num : ¬ (50 = 0)),
    show scan_tiles img1 100 50 = [(0, 0), (0, 50)] from by decide,
    run_tiles_cons_some _ _ _ _ _ _ _ _ _ process_img1_first,
    run_tiles_cons_some _ _ _ _ _ _ _ _ _ process_img1_second,
    run_tiles_nil]

/-! Evaluation of the trivial run on the 1×1 image `img0`. -/

lemma run_fold_img0 : run_fold img0 1 1 1 (fun _ => 0) = some ⟨img0.pix, [], 0⟩ := by
  unfold run_fold
  rw [step_size_one_one, max_flake_size_one, if_neg (by norm_num : ¬ (100 = 0)),
    show scan_tiles img0 200 100 = [] from by decide, run_tiles_nil]

lemma detect_img0 : detect_and_move_flakes img0 1 1 1 (fun _ => 0) = some out0 := by
  rw [detect_and_move_flakes, run_fold_img0]
  rfl

/-! The claim theorems. -/

/-- C1, counterexample: the code keeps no occupancy map and never checks
for collisions, so the claimed no-overlap invariant is false.  On the
101×151 alternating image with parameters `ri = 1`, `fsr = 1/2`, `cs = 1`
(all inside the documented ranges) and the all-zero random stream, the run
places both detected regions at `(0, 0)`: the two placed footprints
coincide, and every pixel of that 100×100 box is written by both placed
regions. -/
theorem C1_counterexample :
    (run_fold img1 1 (1/2) 1 (fun _ => 0)).map RunState.placed = some [(0, 0), (0, 0)] ∧
    footprintsOverlap (0, 0) (0, 0) (max_flake_size (1/2)) := by
  constructor
  · rw [run_fold_img1]
    rfl
  · rw [max_flake_size_half]
    exact ⟨0, 0, by decide, by decide⟩

/-- C1, amended: the redistribution stage performs no occupancy check, so
the footprints of two distinct placed regions can overlap — a run exists
(valid image, parameters inside the documented ranges) that places two
regions whose footprints share pixels, the later write simply overwriting
the earlier one. -/
theorem C1_overlap_possible :
    ∃ (rng : ℕ → ℕ) (st : RunState) (t1 t2 : ℕ × ℕ),
      run_fold img1 1 (1/2) 1 rng = some st ∧ st.placed = [t1, t2] ∧
      footprintsOverlap t1 t2 (max_flake_size (1/2)) := by
  refine ⟨fun _ => 0, st1, (0, 0), (0, 0), run_fold_img1, rfl, ?_⟩
  rw [max_flake_size_half]
  exact ⟨0, 0, by decide, by decide⟩

/-- C2, counterexample: with `flake_size_range = 1` and
`redistribution_intensity = 0.5` the stride is
`int(200 // 1.5) = 133`, not the claimed `200 / (10 × 0.5 + 1) = 33`. -/
theorem C2_counterexample : step_size (1/2) 1 = 133 ∧ step_size (1/2) 1 ≠ 33 := by
  rw [step_size_half_one]
  exact ⟨rfl, by norm_num⟩

/-- C2, amended: the grid-tile scan uses tile edge
`max_size = int(200 × flake_size_range)` and stride
`step = int(max_size // (redistribution_intensity + 1))` (floor division,
no clamping with 1); on a 1000×1000 image with `flake_size_range = 1` and
`redistribution_intensity = 0.5` this gives `max_size = 200`, `step = 133`,
and the scan visits, on each axis, exactly the origins
`0, 133, 266, 399, 532, 665, 798` (all strictly below 800). -/
theorem C2_scan_geometry :
    max_flake_size 1 = 200 ∧ step_size (1/2) 1 = 133 ∧
    py_range (1000 - max_flake_size 1) (step_size (1/2) 1) =
      [0, 133, 266, 399, 532, 665, 798] ∧
    scan_tiles ⟨1000, 1000, fun _ _ _ => 0⟩ (max_flake_size 1) (step_size (1/2) 1) =
      tile_list [0, 133, 266, 399, 532, 665, 798] [0, 133, 266, 399, 532, 665, 798] := by
  refine ⟨max_flake_size_one, step_size_half_one, ?_, ?_⟩
  · rw [max_flake_size_one, step_size_half_one]
    decide
  · rw [max_flake_size_one, step_size_half_one]
    decide

/-- C3: for every decoded image and parameters inside the documented
ranges (`redistribution_intensity ∈ [0.1, 1]`,
`flake_size_range ∈ [0.5, 2]`, `color_sensitivity ∈ [0.1, 1]`) and every
random stream, the redistribution stage returns a well-formed image of the
input's dimensions — no tile's placement can make the run abort, and a run
that relocates zero regions still returns an image rather than `none`. -/
theorem C3_always_returns (img : Img) (ri fsr cs : ℚ) (rng : ℕ → ℕ)
    (h1 : 1/10 ≤ ri) (h2 : ri ≤ 1) (h3 : 1/2 ≤ fsr) (h4 : fsr ≤ 2)
    (h5 : 1/10 ≤ cs) (h6 : cs ≤ 1) :
    ∃ out : Img, detect_and_move_flakes img ri fsr cs rng = some out ∧
      out.height = img.height ∧ out.width = img.width := by
  have hsize := max_flake_size_ge fsr h3
  have hstep := step_size_pos ri fsr h1 h2 h3
  obtain ⟨st2, hst⟩ := run_tiles_total img ri cs (max_flake_size fsr) rng hsize h1
    (scan_tiles img (max_flake_size fsr) (step_size ri fsr))
    (fun t ht => mem_scan_tiles img _ _ t hstep ht) ⟨img.pix, [], 0⟩
  refine ⟨⟨img.height, img.width, st2.out⟩, ?_, rfl, rfl⟩
  rw [detect_and_move_flakes, run_fold, if_neg (by omega), hst]
  rfl

theorem C3_always_returns_witness :
    ∃ out : Img, detect_and_move_flakes img0 1 1 1 (fun _ => 0) = some out ∧
      out.height = img0.height ∧ out.width = img0.width :=
  C3_always_returns img0 1 1 1 (fun _ => 0) (by norm_num) (by norm_num) (by norm_num)
    (by norm_num) (by norm_num) (by norm_num)

/-- C4: whenever the redistribution stage returns an output image, its
height and width equal the input image's. -/
theorem C4_dims_preserved (img : Img) (ri fsr cs : ℚ) (rng : ℕ → ℕ) (out : Img)
    (h : detect_and_move_flakes img ri fsr cs rng = some out) :
    out.height = img.height ∧ out.width = img.width := by
  rw [detect_and_move_flakes] at h
  obtain ⟨st, hst, rfl⟩ := Option.map_eq_some'.mp h
  exact ⟨rfl, rfl⟩

theorem C4_dims_preserved_witness : out0.height = img0.height ∧ out0.width = img0.width :=
  C4_dims_preserved img0 1 1 1 (fun _ => 0) out0 detect_img0

/-- C5: when no scanned tile's summed per-channel variance exceeds the
threshold, the output image is pixel-identical to the input (parameters
inside the documented ranges keep the scan itself from failing). -/
theorem C5_identity_when_no_tile_passes (img : Img) (ri fsr cs : ℚ) (rng : ℕ → ℕ)
    (h1 : 1/10 ≤ ri) (h2 : ri ≤ 1) (h3 : 1/2 ≤ fsr) (h4 : fsr ≤ 2)
    (hv : ∀ t ∈ scan_tiles img (max_flake_size fsr) (step_size ri fsr),
      ¬ sum_var img t.1 t.2 (max_flake_size fsr) > threshold cs) :
    ∃ out : Img, detect_and_move_flakes img ri fsr cs rng = some out ∧
      out.height = img.height ∧ out.width = img.width ∧
      ∀ r c ch, out.pix r c ch = img.pix r c ch := by
  have hstep := step_size_pos ri fsr h1 h2 h3
  refine ⟨⟨img.height, img.width, img.pix⟩, ?_, rfl, rfl, fun _ _ _ => rfl⟩
  rw [detect_and_move_flakes, run_fold, if_neg (by omega),
    run_tiles_id img ri cs (max_flake_size fsr) rng _ hv ⟨img.pix, [], 0⟩]
  rfl

theorem C5_identity_when_no_tile_passes_witness :
    ∃ out : Img, detect_and_move_flakes img0 1 1 1 (fun _ => 0) = some out ∧
      out.height = img0.height ∧ out.width = img0.width ∧
      ∀ r c ch, out.pix r c ch = img0.pix r c ch :=
  C5_identity_when_no_tile_passes img0 1 1 1 (fun _ => 0) (by norm_num) (by norm_num)
    (by norm_num) (by norm_num)
    (by
      have hempty : scan_tiles img0 (max_flake_size 1) (step_size 1 1) = [] := by
        rw [max_flake_size_one, step_size_one_one]
        decide
      intro t ht
      rw [hempty] at ht
      cases ht)

/-- C6: a 4-channel CMYK array that is all-white (C = M = Y = K = 0 at
every pixel) decodes to RGB (255, 255, 255) everywhere, and one that is
all-black (K = 255 at every pixel) decodes to RGB (0, 0, 0) everywhere. -/
theorem C6_cmyk_extremes :
    (∀ (a : RawArr) (fb : Option Img), a.ndim = 3 → a.channels = 4 →
      (∀ y x c, c < 4 → a.pix y x c = 0) →
      load_large_image (some a) fb = some (cmykToRgb a) ∧
        ∀ y x ch, (cmykToRgb a).pix y x ch = 255) ∧
    (∀ (a : RawArr) (fb : Option Img), a.ndim = 3 → a.channels = 4 →
      (∀ y x, a.pix y x 3 = 255) →
      load_large_image (some a) fb = some (cmykToRgb a) ∧
        ∀ y x ch, (cmykToRgb a).pix y x ch = 0) := by
  constructor
  · intro a fb h3 h4 hw
    refine ⟨by simp [load_large_image, h3, h4], ?_⟩
    intro y x ch
    show cmykByte (a.pix y x ch.val) (a.pix y x 3) = 255
    rw [hw y x ch.val (by have := ch.isLt; omega), hw y x 3 (by omega)]
    norm_num [cmykByte]
    rfl
  · intro a fb h3 h4 hk
    refine ⟨by simp [load_large_image, h3, h4], ?_⟩
    intro y x ch
    show cmykByte (a.pix y x ch.val) (a.pix y x 3) = 0
    rw [hk y x]
    norm_num [cmykByte]

theorem C6_cmyk_extremes_witness :
    (load_large_image (some whiteArr) none = some (cmykToRgb whiteArr) ∧
      (cmykToRgb whiteArr).pix 0 0 0 = 255) ∧
    (load_large_image (some blackArr) none = some (cmykToRgb blackArr) ∧
      (cmykToRgb blackArr).pix 0 0 0 = 0) := by
  have hw := C6_cmyk_extremes.1 whiteArr none rfl rfl (fun _ _ _ _ => rfl)
  have hb := C6_cmyk_extremes.2 blackArr none rfl rfl (fun _ _ => rfl)
  exact ⟨⟨hw.1, hw.2 0 0 0⟩, ⟨hb.1, hb.2 0 0 0⟩⟩

/-- C7, counterexample: a five-channel buffer is not decoded as CMYK with
the fifth channel dropped; it reaches the generic `Image.fromarray` path,
which raises, and with no working fallback the loader fails (`none`)
instead of producing the claimed CMYK decode of the first four planes. -/
theorem C7_counterexample :
    load_large_image (some fiveArr) none = none ∧
    load_large_image (some fiveArr) none ≠ some (cmykToRgb (takeFourChannels fiveArr)) :=
  ⟨rfl, fun h => Option.noConfusion h⟩

/-- C7, amended: only buffers with exactly four channels take the CMYK
branch; a buffer with five or more channels is not CMYK-converted — its
generic conversion raises and the loader returns whatever the fallback
path produces. -/
theorem C7_channel_dispatch :
    (∀ (a : RawArr) (fb : Option Img), a.ndim = 3 → a.channels = 4 →
      load_large_image (some a) fb = some (cmykToRgb a)) ∧
    (∀ (a : RawArr) (fb : Option Img), a.ndim = 3 → 5 ≤ a.channels →
      load_large_image (some a) fb = fb) := by
  constructor
  · intro a fb h3 h4
    simp [load_large_image, h3, h4]
  · intro a fb h3 h5
    have h4 : ¬ a.channels = 4 := by omega
    have hp : ¬ a.channels = 3 := by omega
    simp [load_large_image, pilFromArray, h3, h4, hp]

theorem C7_channel_dispatch_witness :
    load_large_image (some whiteArr) none = some (cmykToRgb whiteArr) ∧
    load_large_image (some fiveArr) (some imgW) = some imgW :=
  ⟨C7_channel_dispatch.1 whiteArr none rfl rfl,
    C7_channel_dispatch.2 fiveArr (some imgW) rfl (by decide)⟩

/-- C8, counterexample: when the tifffile read succeeds but yields an
array that is not 3-dimensional (here a 2-dimensional grayscale plane),
the loader executes `return None` directly — the failure is surfaced
without attempting the secondary PIL decode path, even though that
fallback would have succeeded. -/
theorem C8_counterexample :
    load_large_image (some grayArr) (some imgW) = none ∧ (some imgW : Option Img) ≠ none :=
  ⟨rfl, fun h => Option.noConfusion h⟩

/-- C8, amended: when the primary tifffile decode raises, the loader
returns the outcome of the secondary PIL path, and failure is surfaced
only when both fail; but when the primary read succeeds with an array of
unsupported dimensionality, the loader returns failure immediately without
attempting the secondary path. -/
theorem C8_fallback_policy :
    (∀ fb : Option Img, load_large_image none fb = fb) ∧
    load_large_image none none = (none : Option Img) ∧
    (∀ (a : RawArr) (fb : Option Img), a.ndim ≠ 3 → load_large_image (some a) fb = none) := by
  refine ⟨fun fb => rfl, rfl, ?_⟩
  intro a fb h3
  simp [load_large_image, h3]

theorem C8_fallback_policy_witness :
    load_large_image none (some imgW) = some imgW ∧
    load_large_image (some grayArr) (some imgW) = none :=
  ⟨C8_fallback_policy.1 (some imgW),
    C8_fallback_policy.2.2 grayArr (some imgW) (by decide)⟩

/-- C9, counterexample: in the claimed scenario (1000×1000 image, region
size 50 at origin 100, `redistribution_intensity = 0.2`, so
`move_range = 200`), the candidate coordinate is never the claimed upper
endpoint 300: `np.random.randint`'s upper bound is exclusive, so no draw
(here: none of the 300 residues the generator can take) yields 300. -/
theorem C9_counterexample :
    (300 : ℕ) ∉ (Finset.range 300).image
      (fun s => new_coord 1000 50 100 (move_range 1000 1000 (1/5)) s) := by
  have hmr : move_range 1000 1000 (1/5) = 200 := by
    norm_num [move_range, pyInt]
    rfl
  rw [hmr]
  intro h
  obtain ⟨s, _, hs⟩ := Finset.mem_image.mp h
  have hs2 : new_coord 1000 50 100 200 s = 300 := hs
  have hlt := new_coord_lt 1000 50 100 200 s (by decide)
  rw [hs2] at hlt
  exact absurd hlt (by decide)

/-- C9, amended: the displacement bound is
`int(min(width, height) × redistribution_intensity)` (equal to 200 in the
scenario), and each axis of the candidate position lies in the half-open
interval `[max(0, origin − range), min(dimension − region_size, origin + range))`
— inclusive lower endpoint, exclusive upper endpoint, so the scenario's
candidate y lies in `[0, 299]`, not `[0, 300]`. -/
theorem C9_candidate_halfopen :
    move_range 1000 1000 (1/5) = 200 ∧
    ∀ dim size origin mr s : ℕ,
      origin - mr < min (dim - size) (origin + mr) →
      origin - mr ≤ new_coord dim size origin mr s ∧
        new_coord dim size origin mr s < min (dim - size) (origin + mr) := by
  constructor
  · norm_num [move_range, pyInt]
    rfl
  · intro dim size origin mr s h
    constructor
    · rw [new_coord, randint]
      omega
    · exact new_coord_lt dim size origin mr s h

theorem C9_candidate_halfopen_witness :
    100 - 200 ≤ new_coord 1000 50 100 200 7 ∧
      new_coord 1000 50 100 200 7 < min (1000 - 50) (100 + 200) :=
  C9_candidate_halfopen.2 1000 50 100 200 7 (by decide)

/-- C10: every output pixel outside the bounding-box footprints of all
placed flakes equals the input pixel, and in particular the last row and
last column of the image are never modified: the exclusive upper bound of
the candidate draw keeps every placed footprint strictly inside the
image. -/
theorem C10_background_and_borders (img : Img) (ri fsr cs : ℚ) (rng : ℕ → ℕ)
    (st : RunState) (h : run_fold img ri fsr cs rng = some st) :
    detect_and_move_flakes img ri fsr cs rng = some ⟨img.height, img.width, st.out⟩ ∧
    (∀ r c ch, (∀ t ∈ st.placed, ¬ inFootprint t (max_flake_size fsr) r c) →
      st.out r c ch = img.pix r c ch) ∧
    (∀ c ch, st.out (img.height - 1) c ch = img.pix (img.height - 1) c ch) ∧
    (∀ r ch, st.out r (img.width - 1) ch = img.pix r (img.width - 1) ch) := by
  have hinv : PlacedOK img (max_flake_size fsr) st := by
    rw [run_fold] at h
    by_cases hz : step_size ri fsr = 0
    · rw [if_pos hz] at h
      cases h
    · rw [if_neg hz] at h
      exact run_tiles_inv img ri cs (max_flake_size fsr) rng _ _ _
        (placedOK_init img (max_flake_size fsr)) h
  refine ⟨?_, hinv.1, ?_, ?_⟩
  · rw [detect_and_move_flakes, h]
    rfl
  · intro c ch
    apply hinv.1
    intro t ht hfoot
    have hb := hinv.2 t ht
    unfold inFootprint at hfoot
    omega
  · intro r ch
    apply hinv.1
    intro t ht hfoot
    have hb := hinv.2 t ht
    unfold inFootprint at hfoot
    omega

theorem C10_background_and_borders_witness :
    (⟨img0.pix, [], 0⟩ : RunState).out (img0.height - 1) 0 0 =
      img0.pix (img0.height - 1) 0 0 :=
  (C10_background_and_borders img0 1 1 1 (fun _ => 0) ⟨img0.pix, [], 0⟩ run_fold_img0).2.2.1 0 0

end StoneGen
